import Mathlib

/-!
Shallow embedding of the VocalHarmony playback core (`src/vocal-harmony/src/App.jsx`).

The component keeps four pieces of state that matter to the playback engine:
* `audioBlob` — the captured recording (`null` until a capture finishes);
* `activePitches` — the JS `Set` of selected pitch offsets, initialized to `{0}`;
* `pitchPlayersRef` — the JS `Map` from pitch offset to `{ player, pitchShift }`;
* implicitly, the Tone.js resources (players / pitch shifters) that get created
  and disposed.

We model the JS `Map` as an insertion-ordered association list with JS `Map`
semantics (`set` replaces in place or appends, `delete` filters), the JS `Set`
of active pitches as an insertion-ordered duplicate-free list, and resource
allocation/disposal with a fresh-id counter `nextId` plus a `disposeLog` that
records every `dispose()` call on a player or pitch-shift handle, so that
"disposed exactly once" is expressible.  The recording blob is an opaque token
(`Option Nat`); `Tone.now()` is passed in as a parameter `now`.
-/

namespace VocalHarmony

/-- A Tone.js resource owned by a voice chain: the `Tone.Player` or the
`Tone.PitchShift` processor. -/
inductive Res where
  | player
  | shifter
  deriving Repr, DecidableEq

/-- One voice chain as built by `setupPitchPlayer`: a fresh player/shifter pair
(identified by the generation id `id`), whose `Tone.PitchShift` was created with
the semitone parameter `shifterPitch`, and whose player has loaded the recording
iff a blob was present at setup time. -/
structure Chain where
  id : Nat
  shifterPitch : Int
  loaded : Bool
  deriving Repr, DecidableEq

/-- The JS `Map.has` on the pitch-player map. -/
def mapHas (k : Int) (m : List (Int × Chain)) : Bool :=
  m.any (fun e => e.1 == k)

/-- The JS `Map.get` on the pitch-player map. -/
def mapGet (k : Int) (m : List (Int × Chain)) : Option Chain :=
  (m.find? (fun e => e.1 == k)).map Prod.snd

/-- The JS `Map.set`: replaces the binding in place when the key is present,
otherwise appends (JS `Map` preserves insertion order). -/
def mapSet (k : Int) (v : Chain) (m : List (Int × Chain)) : List (Int × Chain) :=
  if mapHas k m then m.map (fun e => if e.1 == k then (k, v) else e)
  else m ++ [(k, v)]

/-- The JS `Map.delete`. -/
def mapDelete (k : Int) (m : List (Int × Chain)) : List (Int × Chain) :=
  m.filter (fun e => e.1 != k)

/-- The component state relevant to the playback core. -/
structure AppState where
  audioBlob : Option Nat
  activePitches : List Int
  players : List (Int × Chain)
  nextId : Nat
  disposeLog : List (Nat × Res)
  deriving Repr, DecidableEq

/-- Initial component state: no recording, selection `{0}`, empty player map
(`useState(new Set([0]))`, `useRef(new Map())`). -/
def initState : AppState :=
  { audioBlob := none, activePitches := [0], players := [], nextId := 0,
    disposeLog := [] }

/-- `getIntervalStyle` from the source, verbatim: pure function from a pitch to
the CSS class string used for its button. -/
def getIntervalStyle (pitch : Int) : String :=
  if pitch = 0 then "bg-white hover:bg-gray-200"
  else
    let absValue := pitch.natAbs
    if absValue ∈ [4, 7, 12] then "bg-blue-300 hover:bg-blue-400 text-blue-900"
    else if absValue ∈ [3, 5, 8, 9] then
      "bg-blue-100 hover:bg-blue-200 text-blue-900"
    else "bg-red-100 hover:bg-red-200 text-red-900"

/-- `setupPitchPlayer(pitch)`: allocates a fresh player and a `Tone.PitchShift`
parameterized by `pitch`, wires them, stores the pair in the map under `pitch`,
and loads the player from the blob when one exists. -/
def setupPitchPlayer (pitch : Int) (s : AppState) : AppState :=
  let chain : Chain :=
    { id := s.nextId, shifterPitch := pitch, loaded := s.audioBlob.isSome }
  { s with players := mapSet pitch chain s.players, nextId := s.nextId + 1 }

/-- The cleanup performed by `togglePitch` on toggle-off: if the map holds a
chain for `pitch`, dispose its player, dispose its pitch shifter, and delete the
map entry; otherwise do nothing. -/
def disposeChain (pitch : Int) (s : AppState) : AppState :=
  match mapGet pitch s.players with
  | some c =>
      { s with players := mapDelete pitch s.players,
               disposeLog :=
                 s.disposeLog ++ [(c.id, Res.player), (c.id, Res.shifter)] }
  | none => s

/-- `togglePitch(pitch)`: flips membership in the selection set; on removal it
disposes and deletes the chain for `pitch` if one exists; on insertion it
eagerly sets up a chain when a recording exists and none is registered yet. -/
def togglePitch (pitch : Int) (s : AppState) : AppState :=
  if pitch ∈ s.activePitches then
    let s1 := disposeChain pitch s
    { s1 with activePitches := s1.activePitches.erase pitch }
  else
    let s1 :=
      if s.audioBlob.isSome && !(mapHas pitch s.players) then
        setupPitchPlayer pitch s
      else s
    { s1 with activePitches := s1.activePitches ++ [pitch] }

/-- The body of the loop in `playRecording` ("create and load players for any
new active pitches"): the registry `ensure` verb of the spec, extracted from
the source. -/
def ensure (pitch : Int) (s : AppState) : AppState :=
  if mapHas pitch s.players then s else setupPitchPlayer pitch s

/-- The toggle-off cleanup is the registry `release` verb of the spec. -/
def release (pitch : Int) (s : AppState) : AppState :=
  disposeChain pitch s

/-- Outcome of a `playRecording` call: the guard `if (audioBlob)` either rejects
the request (no recording — the spec's `NoRecordingError`, surfaced as a no-op)
or runs the playback body. -/
inductive PlayResult where
  | noRecording
  | played
  deriving Repr, DecidableEq

/-- One `player.start(startTime)` call: which map key it was issued under,
which player (chain id) received it, and the reference time passed. -/
structure StartEvent where
  pitch : Int
  chainId : Nat
  time : Nat
  deriving Repr, DecidableEq

/-- `playRecording()`: when no blob exists the body is skipped; otherwise every
active pitch lacking a chain gets one (`ensure`), one reference time
`startTime = Tone.now()` is computed, and `player.start(startTime)` is issued to
every entry of the pitch-player map. -/
def playRecording (now : Nat) (s : AppState) :
    PlayResult × AppState × List StartEvent :=
  match s.audioBlob with
  | none => (PlayResult.noRecording, s, [])
  | some _ =>
      let s1 := s.activePitches.foldl (fun st p => ensure p st) s
      (PlayResult.played, s1,
        s1.players.map (fun e => { pitch := e.1, chainId := e.2.id, time := now }))

/-- The user-visible operations that drive the playback core: toggling a pitch
button, pressing Play, and a capture finishing (the `onstop` handler setting
`audioBlob`). -/
inductive Op where
  | toggle (pitch : Int)
  | play (now : Nat)
  | record (blob : Nat)
  deriving Repr, DecidableEq

/-- Apply one operation to the component state. -/
def applyOp (s : AppState) : Op → AppState
  | Op.toggle p => togglePitch p s
  | Op.play now => (playRecording now s).2.1
  | Op.record b => { s with audioBlob := some b }

/-- Run a sequence of operations from the initial component state. -/
def runOps (ops : List Op) : AppState :=
  ops.foldl applyOp initState

/-- Registry-level operations of the spec's Voice Registry contract, as they
occur in the source (`ensure` inside `playRecording` / toggle-on, `release` on
toggle-off). -/
inductive RegOp where
  | ensureOp (pitch : Int)
  | releaseOp (pitch : Int)
  deriving Repr, DecidableEq

/-- Apply one registry operation. -/
def applyRegOp (s : AppState) : RegOp → AppState
  | RegOp.ensureOp p => ensure p s
  | RegOp.releaseOp p => release p s

/-- Run a sequence of registry operations from a given state. -/
def runRegOps (ops : List RegOp) (s : AppState) : AppState :=
  ops.foldl applyRegOp s

/-- A state with a ready recording and an empty registry, used as the base
state for registry-contract reasoning ("starting from the empty map"). -/
def regInit : AppState :=
  { audioBlob := some 0, activePitches := [0], players := [], nextId := 0,
    disposeLog := [] }

/-- Whether, after processing `ops` left to right starting from accumulator
`b`, the most recent operation touching offset `o` was an `ensure`. -/
def lastEnsuredAux (o : Int) (b : Bool) : List RegOp → Bool
  | [] => b
  | RegOp.ensureOp p :: rest =>
      lastEnsuredAux o (if p = o then true else b) rest
  | RegOp.releaseOp p :: rest =>
      lastEnsuredAux o (if p = o then false else b) rest

/-- Whether the most recent operation in `ops` touching offset `o` was an
`ensure` (false when no operation ever touched `o`). -/
def lastEnsured (o : Int) (ops : List RegOp) : Bool :=
  lastEnsuredAux o false ops

/-- Number of times the resource `r` (a chain id paired with which handle)
has been disposed according to the dispose log. -/
def countDisposals (r : Nat × Res) (log : List (Nat × Res)) : Nat :=
  (log.filter (fun e => decide (e = r))).length

/-- The internal well-formedness invariant of the component state: the
selection list is duplicate-free (it models a JS `Set`), every registered
chain's key is a selected pitch, the map keys are duplicate-free (JS `Map`),
and every chain's pitch shifter carries the offset it is keyed under. -/
def StateOK (s : AppState) : Prop :=
  s.activePitches.Nodup ∧
  (∀ pc ∈ s.players, pc.1 ∈ s.activePitches) ∧
  (s.players.map Prod.fst).Nodup ∧
  (∀ pc ∈ s.players, pc.2.shifterPitch = pc.1)

/- ### Basic lemmas about the map operations -/

theorem mapHas_eq_true_iff (k : Int) (m : List (Int × Chain)) :
    mapHas k m = true ↔ k ∈ m.map Prod.fst := by
  simp [mapHas, List.any_eq_true, List.mem_map]

theorem mapHas_eq_false_iff (k : Int) (m : List (Int × Chain)) :
    mapHas k m = false ↔ ∀ pc ∈ m, pc.1 ≠ k := by
  rw [← Bool.not_eq_true, mapHas_eq_true_iff]
  constructor
  · intro h pc hpc hk
    exact h (List.mem_map.mpr ⟨pc, hpc, hk⟩)
  · intro h hmem
    rcases List.mem_map.mp hmem with ⟨pc, hpc, hk⟩
    exact h pc hpc hk

theorem mapGet_eq_none_of_not_has {k : Int} {m : List (Int × Chain)}
    (h : mapHas k m = false) : mapGet k m = none := by
  rw [mapHas_eq_false_iff] at h
  have : m.find? (fun e => e.1 == k) = none := by
    rw [List.find?_eq_none]
    intro x hx
    simpa using h x hx
  simp [mapGet, this]

theorem mapHas_eq_false_of_mapGet_none {k : Int} {m : List (Int × Chain)}
    (h : mapGet k m = none) : mapHas k m = false := by
  rw [mapHas_eq_false_iff]
  intro pc hpc
  have hfind : m.find? (fun e => e.1 == k) = none := by
    cases hf : m.find? (fun e => e.1 == k) with
    | none => rfl
    | some e => simp [mapGet, hf] at h
  have := List.find?_eq_none.mp hfind pc hpc
  simpa using this

theorem mapGet_append_self {k : Int} {m : List (Int × Chain)} (c : Chain)
    (h : mapHas k m = false) : mapGet k (m ++ [(k, c)]) = some c := by
  induction m with
  | nil => simp [mapGet, List.find?]
  | cons e rest ih =>
      have h1 : (e.1 == k) = false := by
        rw [mapHas_eq_false_iff] at h
        simpa using h e (by simp)
      have h2 : mapHas k rest = false := by
        rw [mapHas_eq_false_iff] at h ⊢
        intro pc hpc
        exact h pc (by simp [hpc])
      simpa [mapGet, List.find?_cons, h1] using ih h2

theorem setupPitchPlayer_players {p : Int} {s : AppState}
    (h : mapHas p s.players = false) :
    (setupPitchPlayer p s).players =
      s.players ++
        [(p, { id := s.nextId, shifterPitch := p,
               loaded := s.audioBlob.isSome })] := by
  simp [setupPitchPlayer, mapSet, h]

theorem mapHas_setup {o p : Int} {s : AppState} (h : mapHas p s.players = false) :
    mapHas o (setupPitchPlayer p s).players =
      (mapHas o s.players || (p == o)) := by
  rw [setupPitchPlayer_players h]
  simp [mapHas, List.any_append]

theorem mapHas_ensure (o p : Int) (s : AppState) :
    mapHas o (ensure p s).players = (mapHas o s.players || (p == o)) := by
  unfold ensure
  cases h : mapHas p s.players with
  | false => simp [mapHas_setup h]
  | true =>
      rcases eq_or_ne p o with rfl | hne
      · simp [h]
      · simp [hne]

theorem mapHas_mapDelete (o p : Int) (m : List (Int × Chain)) :
    mapHas o (mapDelete p m) = (!(p == o) && mapHas o m) := by
  rcases eq_or_ne p o with rfl | hne
  · simp only [beq_self_eq_true, Bool.not_true, Bool.false_and]
    rw [← Bool.not_eq_true, mapHas_eq_true_iff]
    simp [mapDelete, List.mem_filter, List.mem_map]
  · have hne' : (p == o) = false := by simpa using hne
    rw [hne']
    simp only [Bool.not_false, Bool.true_and]
    rw [Bool.eq_iff_iff, mapHas_eq_true_iff, mapHas_eq_true_iff]
    simp only [List.mem_map, mapDelete, List.mem_filter]
    constructor
    · rintro ⟨pc, ⟨hm, _⟩, hk⟩
      exact ⟨pc, hm, hk⟩
    · rintro ⟨pc, hm, hk⟩
      refine ⟨pc, ⟨hm, ?_⟩, hk⟩
      simp [hk, hne.symm]

theorem mapHas_release (o p : Int) (s : AppState) :
    mapHas o (release p s).players = (!(p == o) && mapHas o s.players) := by
  unfold release disposeChain
  cases hg : mapGet p s.players with
  | none =>
      rcases eq_or_ne p o with rfl | hne
      · simp [mapHas_eq_false_of_mapGet_none hg]
      · simp [hne]
  | some c => simp [mapHas_mapDelete]

/- ### Lemmas about the state-changing operations -/

theorem disposeChain_activePitches (p : Int) (s : AppState) :
    (disposeChain p s).activePitches = s.activePitches := by
  unfold disposeChain
  cases mapGet p s.players <;> rfl

theorem disposeChain_audioBlob (p : Int) (s : AppState) :
    (disposeChain p s).audioBlob = s.audioBlob := by
  unfold disposeChain
  cases mapGet p s.players <;> rfl

theorem mem_disposeChain_players {pc : Int × Chain} {p : Int} {s : AppState}
    (h : pc ∈ (disposeChain p s).players) : pc ∈ s.players ∧ pc.1 ≠ p := by
  revert h
  unfold disposeChain
  cases hg : mapGet p s.players with
  | none =>
      intro h
      have hfalse := mapHas_eq_false_of_mapGet_none hg
      rw [mapHas_eq_false_iff] at hfalse
      exact ⟨h, hfalse pc h⟩
  | some c =>
      intro h
      simp only [mapDelete, List.mem_filter] at h
      refine ⟨h.1, ?_⟩
      simpa using h.2

theorem disposeChain_keys_sublist (p : Int) (s : AppState) :
    ((disposeChain p s).players.map Prod.fst).Sublist
      (s.players.map Prod.fst) := by
  unfold disposeChain
  cases mapGet p s.players with
  | none => exact List.Sublist.refl _
  | some c => exact (List.filter_sublist s.players).map Prod.fst

theorem ensure_activePitches (p : Int) (s : AppState) :
    (ensure p s).activePitches = s.activePitches := by
  unfold ensure setupPitchPlayer
  split <;> rfl

theorem ensure_audioBlob (p : Int) (s : AppState) :
    (ensure p s).audioBlob = s.audioBlob := by
  unfold ensure setupPitchPlayer
  split <;> rfl

theorem ensure_of_has {p : Int} {st : AppState} (hp : mapHas p st.players = true) :
    ensure p st = st := by
  simp [ensure, hp]

theorem ensure_of_not_has {p : Int} {st : AppState}
    (hp : mapHas p st.players = false) :
    ensure p st = setupPitchPlayer p st := by
  simp [ensure, hp]

theorem mem_players_ensure {pc : Int × Chain} {st : AppState} (p : Int)
    (h : pc ∈ st.players) : pc ∈ (ensure p st).players := by
  cases hp : mapHas p st.players with
  | true => rw [ensure_of_has hp]; exact h
  | false =>
      rw [ensure_of_not_has hp, setupPitchPlayer_players hp]
      exact List.mem_append_left _ h

theorem mem_players_foldl_ensure {pc : Int × Chain} :
    ∀ (l : List Int) (st : AppState), pc ∈ st.players →
      pc ∈ (l.foldl (fun st p => ensure p st) st).players := by
  intro l
  induction l with
  | nil => intro st h; exact h
  | cons p rest ih =>
      intro st h
      exact ih (ensure p st) (mem_players_ensure p h)

theorem stateOK_setup {p : Int} {s : AppState} (hok : StateOK s)
    (hsel : p ∈ s.activePitches) (hp : mapHas p s.players = false) :
    StateOK (setupPitchPlayer p s) := by
  obtain ⟨hnd, hsub, hknd, hsh⟩ := hok
  have hnotin : p ∉ s.players.map Prod.fst := by
    intro hmem
    rw [← mapHas_eq_true_iff] at hmem
    rw [hp] at hmem
    exact Bool.noConfusion hmem
  refine ⟨hnd, ?_, ?_, ?_⟩ <;> rw [setupPitchPlayer_players hp]
  · intro pc hpc
    rcases List.mem_append.mp hpc with h1 | h1
    · exact hsub pc h1
    · simp only [List.mem_singleton] at h1
      subst h1
      exact hsel
  · rw [List.map_append, List.nodup_append]
    refine ⟨hknd, List.nodup_singleton _, ?_⟩
    intro a ha hb
    simp only [List.map_cons, List.map_nil, List.mem_singleton] at hb
    subst hb
    exact hnotin ha
  · intro pc hpc
    rcases List.mem_append.mp hpc with h1 | h1
    · exact hsh pc h1
    · simp only [List.mem_singleton] at h1
      subst h1
      rfl

theorem stateOK_ensure {p : Int} {s : AppState} (hok : StateOK s)
    (hsel : p ∈ s.activePitches) : StateOK (ensure p s) := by
  unfold ensure
  cases hp : mapHas p s.players with
  | true => exact hok
  | false => exact stateOK_setup hok hsel hp

theorem stateOK_foldl_ensure :
    ∀ (l : List Int) (s : AppState), StateOK s →
      (∀ p ∈ l, p ∈ s.activePitches) →
      StateOK (l.foldl (fun st p => ensure p st) s) := by
  intro l
  induction l with
  | nil => intro s hok _; exact hok
  | cons p rest ih =>
      intro s hok hmem
      refine ih (ensure p s) (stateOK_ensure hok (hmem p (by simp))) ?_
      intro q hq
      rw [ensure_activePitches]
      exact hmem q (by simp [hq])

theorem stateOK_playRecording {s : AppState} (now : Nat) (hok : StateOK s) :
    StateOK (playRecording now s).2.1 := by
  unfold playRecording
  cases hb : s.audioBlob with
  | none => exact hok
  | some b => exact stateOK_foldl_ensure s.activePitches s hok (fun p hp => hp)

theorem stateOK_disposeChain {p : Int} {s : AppState} (hok : StateOK s) :
    StateOK (disposeChain p s) := by
  obtain ⟨hnd, hsub, hknd, hsh⟩ := hok
  refine ⟨?_, ?_, ?_, ?_⟩
  · rw [disposeChain_activePitches]; exact hnd
  · intro pc hpc
    rw [disposeChain_activePitches]
    exact hsub pc (mem_disposeChain_players hpc).1
  · exact hknd.sublist (disposeChain_keys_sublist p s)
  · intro pc hpc
    exact hsh pc (mem_disposeChain_players hpc).1

theorem togglePitch_of_mem {p : Int} {s : AppState}
    (hin : p ∈ s.activePitches) :
    togglePitch p s =
      { disposeChain p s with
        activePitches := (disposeChain p s).activePitches.erase p } := by
  simp [togglePitch, hin]

theorem togglePitch_of_not_mem_skip {p : Int} {s : AppState}
    (hout : p ∉ s.activePitches)
    (hcond : (s.audioBlob.isSome && !(mapHas p s.players)) = false) :
    togglePitch p s = { s with activePitches := s.activePitches ++ [p] } := by
  simp [togglePitch, hout, hcond]

theorem togglePitch_of_not_mem_setup {p : Int} {s : AppState}
    (hout : p ∉ s.activePitches)
    (hcond : (s.audioBlob.isSome && !(mapHas p s.players)) = true) :
    togglePitch p s =
      { setupPitchPlayer p s with
        activePitches := s.activePitches ++ [p] } := by
  simp [togglePitch, hout, hcond, setupPitchPlayer]

theorem togglePitch_activePitches (p : Int) (s : AppState) :
    (togglePitch p s).activePitches =
      if p ∈ s.activePitches then s.activePitches.erase p
      else s.activePitches ++ [p] := by
  by_cases hin : p ∈ s.activePitches
  · rw [togglePitch_of_mem hin, if_pos hin, disposeChain_activePitches]
  · rw [if_neg hin]
    cases hcond : (s.audioBlob.isSome && !(mapHas p s.players)) with
    | false => rw [togglePitch_of_not_mem_skip hin hcond]
    | true => rw [togglePitch_of_not_mem_setup hin hcond]

theorem nodup_append_new {l : List Int} {p : Int} (hnd : l.Nodup)
    (hout : p ∉ l) : (l ++ [p]).Nodup := by
  rw [List.nodup_append]
  refine ⟨hnd, List.nodup_singleton _, ?_⟩
  intro a ha hb
  simp only [List.mem_singleton] at hb
  subst hb
  exact hout ha

theorem stateOK_togglePitch {p : Int} {s : AppState} (hok : StateOK s) :
    StateOK (togglePitch p s) := by
  by_cases hin : p ∈ s.activePitches
  · rw [togglePitch_of_mem hin]
    obtain ⟨hnd, hsub, hknd, hsh⟩ := @stateOK_disposeChain p s hok
    refine ⟨hnd.erase p, ?_, hknd, hsh⟩
    intro pc hpc
    have h1 := hsub pc hpc
    have h2 := (mem_disposeChain_players hpc).2
    exact (List.mem_erase_of_ne h2).mpr h1
  · obtain ⟨hnd, hsub, hknd, hsh⟩ := hok
    cases hcond : (s.audioBlob.isSome && !(mapHas p s.players)) with
    | false =>
        rw [togglePitch_of_not_mem_skip hin hcond]
        refine ⟨nodup_append_new hnd hin, ?_, hknd, hsh⟩
        intro pc hpc
        exact List.mem_append_left _ (hsub pc hpc)
    | true =>
        rw [togglePitch_of_not_mem_setup hin hcond]
        have hp : mapHas p s.players = false := by
          have := Bool.and_elim_right hcond
          simpa using this
        have hnotin : p ∉ s.players.map Prod.fst := by
          intro hmem
          rw [← mapHas_eq_true_iff] at hmem
          rw [hp] at hmem
          exact Bool.noConfusion hmem
        refine ⟨nodup_append_new hnd hin, ?_, ?_, ?_⟩
        · intro pc hpc
          rw [setupPitchPlayer_players hp] at hpc
          rcases List.mem_append.mp hpc with h1 | h1
          · exact List.mem_append_left _ (hsub pc h1)
          · simp only [List.mem_singleton] at h1
            subst h1
            simp
        · rw [setupPitchPlayer_players hp, List.map_append, List.nodup_append]
          refine ⟨hknd, List.nodup_singleton _, ?_⟩
          intro a ha hb
          simp only [List.map_cons, List.map_nil, List.mem_singleton] at hb
          subst hb
          exact hnotin ha
        · intro pc hpc
          rw [setupPitchPlayer_players hp] at hpc
          rcases List.mem_append.mp hpc with h1 | h1
          · exact hsh pc h1
          · simp only [List.mem_singleton] at h1
            subst h1
            rfl

theorem stateOK_applyOp {s : AppState} (op : Op) (hok : StateOK s) :
    StateOK (applyOp s op) := by
  cases op with
  | toggle p => exact stateOK_togglePitch hok
  | play now => exact stateOK_playRecording now hok
  | record b =>
      obtain ⟨hnd, hsub, hknd, hsh⟩ := hok
      exact ⟨hnd, hsub, hknd, hsh⟩

theorem stateOK_initState : StateOK initState := by
  refine ⟨?_, ?_, ?_, ?_⟩ <;> simp [initState]

theorem stateOK_foldl_applyOp :
    ∀ (ops : List Op) (s : AppState), StateOK s →
      StateOK (ops.foldl applyOp s) := by
  intro ops
  induction ops with
  | nil => intro s h; exact h
  | cons op rest ih => intro s h; exact ih (applyOp s op) (stateOK_applyOp op h)

theorem stateOK_runOps (ops : List Op) : StateOK (runOps ops) :=
  stateOK_foldl_applyOp ops initState stateOK_initState

theorem playRecording_eq_of_none {s : AppState} (now : Nat)
    (h : s.audioBlob = none) :
    playRecording now s = (PlayResult.noRecording, s, []) := by
  simp [playRecording, h]

theorem countDisposals_append (r : Nat × Res) (l₁ l₂ : List (Nat × Res)) :
    countDisposals r (l₁ ++ l₂) =
      countDisposals r l₁ + countDisposals r l₂ := by
  simp [countDisposals, List.filter_append]

theorem countDisposals_eq_zero {r : Nat × Res} {l : List (Nat × Res)}
    (h : r ∉ l) : countDisposals r l = 0 := by
  unfold countDisposals
  rw [List.length_eq_zero, List.filter_eq_nil_iff]
  intro a ha
  simp only [decide_eq_true_eq]
  intro heq
  subst heq
  exact h ha

theorem countDisposals_cons (r x : Nat × Res) (l : List (Nat × Res)) :
    countDisposals r (x :: l) =
      (if x = r then 1 else 0) + countDisposals r l := by
  unfold countDisposals
  rw [List.filter_cons]
  by_cases hx : x = r
  · simp [hx, Nat.add_comm]
  · simp [hx]

theorem mapHas_runRegOps_aux (o : Int) :
    ∀ (ops : List RegOp) (s : AppState),
      mapHas o (runRegOps ops s).players =
        lastEnsuredAux o (mapHas o s.players) ops := by
  intro ops
  induction ops with
  | nil => intro s; rfl
  | cons op rest ih =>
      intro s
      cases op with
      | ensureOp p =>
          have hstep : mapHas o (ensure p s).players =
              (if p = o then true else mapHas o s.players) := by
            rw [mapHas_ensure]
            rcases eq_or_ne p o with rfl | hne
            · simp
            · simp [hne]
          calc mapHas o (runRegOps (RegOp.ensureOp p :: rest) s).players
              = mapHas o (runRegOps rest (ensure p s)).players := rfl
            _ = lastEnsuredAux o (mapHas o (ensure p s).players) rest := ih _
            _ = lastEnsuredAux o (mapHas o s.players)
                  (RegOp.ensureOp p :: rest) := by rw [hstep]; rfl
      | releaseOp p =>
          have hstep : mapHas o (release p s).players =
              (if p = o then false else mapHas o s.players) := by
            rw [mapHas_release]
            rcases eq_or_ne p o with rfl | hne
            · simp
            · simp [hne]
          calc mapHas o (runRegOps (RegOp.releaseOp p :: rest) s).players
              = mapHas o (runRegOps rest (release p s)).players := rfl
            _ = lastEnsuredAux o (mapHas o (release p s).players) rest := ih _
            _ = lastEnsuredAux o (mapHas o s.players)
                  (RegOp.releaseOp p :: rest) := by rw [hstep]; rfl

theorem ensure_release_dispose_once (s : AppState) (o : Int)
    (hfresh : ∀ e ∈ s.disposeLog, e.1 < s.nextId)
    (habs : mapHas o s.players = false) :
    mapHas o (release o (ensure o s)).players = false ∧
    countDisposals (s.nextId, Res.player)
      (release o (ensure o s)).disposeLog = 1 ∧
    countDisposals (s.nextId, Res.shifter)
      (release o (ensure o s)).disposeLog = 1 := by
  have hens := ensure_of_not_has habs
  have hps := setupPitchPlayer_players habs
  have hget : mapGet o (setupPitchPlayer o s).players =
      some { id := s.nextId, shifterPitch := o,
             loaded := s.audioBlob.isSome } := by
    rw [hps]
    exact mapGet_append_self _ habs
  have hrel : release o (ensure o s) =
      { setupPitchPlayer o s with
        players := mapDelete o (setupPitchPlayer o s).players,
        disposeLog := s.disposeLog ++
          [(s.nextId, Res.player), (s.nextId, Res.shifter)] } := by
    rw [hens]
    simp only [release, disposeChain, hget]
    rfl
  rw [hrel]
  refine ⟨?_, ?_, ?_⟩
  · simp [mapHas_mapDelete]
  · have hnot : (s.nextId, Res.player) ∉ s.disposeLog := fun hmem =>
      absurd (hfresh _ hmem) (lt_irrefl _)
    rw [countDisposals_append, countDisposals_eq_zero hnot,
        countDisposals_cons, countDisposals_cons]
    simp [countDisposals]
  · have hnot : (s.nextId, Res.shifter) ∉ s.disposeLog := fun hmem =>
      absurd (hfresh _ hmem) (lt_irrefl _)
    rw [countDisposals_append, countDisposals_eq_zero hnot,
        countDisposals_cons, countDisposals_cons]
    simp [countDisposals]

/- ### Claim theorems -/

/-- C1 counterexample: with a recording present (the state reached by one
capture), toggling +3 on creates and registers a Voice Chain for +3 at toggle
time, and the on-then-off round trip before any `play()` allocates one chain
(`nextId` goes from 0 to 1) and disposes it — not the zero chains the claim
demands. -/
theorem toggle_eager_creation_cex :
    mapHas 3 (runOps [Op.record 0, Op.toggle 3]).players = true ∧
    (runOps [Op.record 0, Op.toggle 3, Op.toggle 3]).nextId = 1 ∧
    (runOps [Op.record 0, Op.toggle 3, Op.toggle 3]).disposeLog =
      [(0, Res.player), (0, Res.shifter)] := by
  decide

/-- C1 amended: chain creation on toggle-on is deferred only while no
recording exists — toggling `o` on and then off before any `play()` creates
zero chains for `o` when `audioBlob` is absent; with a recording present,
toggle-on eagerly creates and registers the chain for `o`. -/
theorem toggle_materialization (s : AppState) (o : Int)
    (hsel : o ∉ s.activePitches) (hreg : mapHas o s.players = false) :
    (s.audioBlob = none →
      (togglePitch o (togglePitch o s)).players = s.players ∧
      (togglePitch o (togglePitch o s)).nextId = s.nextId ∧
      (togglePitch o (togglePitch o s)).disposeLog = s.disposeLog) ∧
    (s.audioBlob.isSome = true →
      mapHas o (togglePitch o s).players = true) := by
  constructor
  · intro hnone
    have hcond : (s.audioBlob.isSome && !(mapHas o s.players)) = false := by
      simp [hnone]
    rw [togglePitch_of_not_mem_skip hsel hcond]
    have hin : o ∈
        ({ s with activePitches := s.activePitches ++ [o] } :
          AppState).activePitches := by
      simp
    rw [togglePitch_of_mem hin]
    have hget : mapGet o
        ({ s with activePitches := s.activePitches ++ [o] } :
          AppState).players = none :=
      mapGet_eq_none_of_not_has hreg
    simp only [disposeChain, hget]
    simp
  · intro hsome
    have hcond : (s.audioBlob.isSome && !(mapHas o s.players)) = true := by
      simp [hsome, hreg]
    rw [togglePitch_of_not_mem_setup hsel hcond]
    show mapHas o (setupPitchPlayer o s).players = true
    rw [mapHas_setup hreg]
    simp

theorem toggle_materialization_witness :
    (initState.audioBlob = none →
      (togglePitch 3 (togglePitch 3 initState)).players = initState.players ∧
      (togglePitch 3 (togglePitch 3 initState)).nextId = initState.nextId ∧
      (togglePitch 3 (togglePitch 3 initState)).disposeLog =
        initState.disposeLog) ∧
    (initState.audioBlob.isSome = true →
      mapHas 3 (togglePitch 3 initState).players = true) :=
  toggle_materialization initState 3 (by decide) (by decide)

/-- C2: `play()` before any successful capture takes the rejected branch (the
spec's `NoRecordingError`, surfaced as a no-op): it issues no start calls and
returns the entire state — in particular the Voice Registry — unchanged. -/
theorem play_without_recording (s : AppState) (now : Nat)
    (h : s.audioBlob = none) :
    playRecording now s = (PlayResult.noRecording, s, []) :=
  playRecording_eq_of_none now h

theorem play_without_recording_witness :
    playRecording 0 initState = (PlayResult.noRecording, initState, []) :=
  play_without_recording initState 0 rfl

/-- C3: on every successful `play()` with a ready recording a single
reference time is used — every emitted start call carries the identical time
`now` — and a start call is issued for every chain held by the Voice Registry
after the ensure pass, including every chain that was already registered
before the call (not only newly activated offsets). -/
theorem play_synchronized_start (s : AppState) (now : Nat)
    (h : s.audioBlob.isSome = true) :
    ∃ s1 evs, playRecording now s = (PlayResult.played, s1, evs) ∧
      (∀ e ∈ evs, e.time = now) ∧
      (∀ pc ∈ s1.players, ∃ e ∈ evs, e.pitch = pc.1 ∧ e.chainId = pc.2.id) ∧
      (∀ pc ∈ s.players, pc ∈ s1.players) := by
  rcases Option.isSome_iff_exists.mp h with ⟨b, hb⟩
  have hplay : playRecording now s =
      (PlayResult.played,
        s.activePitches.foldl (fun st p => ensure p st) s,
        (s.activePitches.foldl (fun st p => ensure p st) s).players.map
          (fun e => { pitch := e.1, chainId := e.2.id, time := now })) := by
    simp [playRecording, hb]
  refine ⟨_, _, hplay, ?_, ?_, ?_⟩
  · intro e he
    rcases List.mem_map.mp he with ⟨pc, _, rfl⟩
    rfl
  · intro pc hpc
    exact ⟨{ pitch := pc.1, chainId := pc.2.id, time := now },
      List.mem_map.mpr ⟨pc, hpc, rfl⟩, rfl, rfl⟩
  · intro pc hpc
    exact mem_players_foldl_ensure s.activePitches s hpc

theorem play_synchronized_start_witness :
    ∃ s1 evs, playRecording 7 regInit = (PlayResult.played, s1, evs) ∧
      (∀ e ∈ evs, e.time = 7) ∧
      (∀ pc ∈ s1.players, ∃ e ∈ evs, e.pitch = pc.1 ∧ e.chainId = pc.2.id) ∧
      (∀ pc ∈ regInit.players, pc ∈ s1.players) :=
  play_synchronized_start regInit 7 rfl

/-- C4: (a) for every `ensure`/`release` sequence from the empty registry, an
offset has a live chain exactly when its most recent operation was an
`ensure` without an intervening `release`; (b) `ensure(o, validRecording)`
followed by `release(o)` leaves no registry entry for `o`, and the chain
created for `o` has its player and its pitch-shift handle disposed exactly
once. -/
theorem registry_lifecycle :
    (∀ (ops : List RegOp) (o : Int),
        mapHas o (runRegOps ops regInit).players = lastEnsured o ops) ∧
    (∀ (s : AppState) (o : Int),
        (∀ e ∈ s.disposeLog, e.1 < s.nextId) →
        s.audioBlob.isSome = true →
        mapHas o s.players = false →
        mapHas o (release o (ensure o s)).players = false ∧
        countDisposals (s.nextId, Res.player)
          (release o (ensure o s)).disposeLog = 1 ∧
        countDisposals (s.nextId, Res.shifter)
          (release o (ensure o s)).disposeLog = 1) := by
  constructor
  · intro ops o
    have haux := mapHas_runRegOps_aux o ops regInit
    simpa [lastEnsured, regInit, mapHas] using haux
  · intro s o hfresh _ habs
    exact ensure_release_dispose_once s o hfresh habs

theorem registry_lifecycle_witness :
    mapHas 3 (runRegOps [RegOp.ensureOp 3, RegOp.releaseOp 3] regInit).players =
      lastEnsured 3 [RegOp.ensureOp 3, RegOp.releaseOp 3] ∧
    (mapHas 5 (release 5 (ensure 5 regInit)).players = false ∧
     countDisposals (regInit.nextId, Res.player)
       (release 5 (ensure 5 regInit)).disposeLog = 1 ∧
     countDisposals (regInit.nextId, Res.shifter)
       (release 5 (ensure 5 regInit)).disposeLog = 1) :=
  ⟨registry_lifecycle.1 [RegOp.ensureOp 3, RegOp.releaseOp 3] 3,
   registry_lifecycle.2 regInit 5 (by decide) rfl rfl⟩

/-- C5: interval classification is a pure function of the offset, boundary
exact on [-12, 12]: absolute value in {4, 7, 12} yields the perfect-consonance
style, absolute value in {3, 5, 8, 9} the imperfect-consonance style, offset 0
the unison style, and every other offset in range (absolute value in
{1, 2, 6, 10, 11}) the dissonant style. -/
theorem interval_classification (p : Int) (h1 : -12 ≤ p) (h2 : p ≤ 12) :
    (p.natAbs ∈ [4, 7, 12] →
      getIntervalStyle p = "bg-blue-300 hover:bg-blue-400 text-blue-900") ∧
    (p.natAbs ∈ [3, 5, 8, 9] →
      getIntervalStyle p = "bg-blue-100 hover:bg-blue-200 text-blue-900") ∧
    (p = 0 → getIntervalStyle p = "bg-white hover:bg-gray-200") ∧
    (p ≠ 0 → p.natAbs ∈ [1, 2, 6, 10, 11] →
      getIntervalStyle p = "bg-red-100 hover:bg-red-200 text-red-900") := by
  interval_cases p <;> exact ⟨by decide, by decide, by decide, by decide⟩

theorem interval_classification_witness :
    ((7 : Int).natAbs ∈ [4, 7, 12] →
      getIntervalStyle 7 = "bg-blue-300 hover:bg-blue-400 text-blue-900") ∧
    ((7 : Int).natAbs ∈ [3, 5, 8, 9] →
      getIntervalStyle 7 = "bg-blue-100 hover:bg-blue-200 text-blue-900") ∧
    ((7 : Int) = 0 → getIntervalStyle 7 = "bg-white hover:bg-gray-200") ∧
    ((7 : Int) ≠ 0 → (7 : Int).natAbs ∈ [1, 2, 6, 10, 11] →
      getIntervalStyle 7 = "bg-red-100 hover:bg-red-200 text-red-900") :=
  interval_classification 7 (by decide) (by decide)

/-- C6: toggling any offset twice in a row returns the Selection Set to
exactly its original membership (toggle is its own inverse with respect to
set membership). -/
theorem toggle_twice_membership (s : AppState) (o : Int)
    (h : s.activePitches.Nodup) (x : Int) :
    (x ∈ (togglePitch o (togglePitch o s)).activePitches ↔
      x ∈ s.activePitches) := by
  simp only [togglePitch_activePitches]
  by_cases ho : o ∈ s.activePitches
  · rw [if_pos ho]
    have hnotin : o ∉ s.activePitches.erase o := fun hmem =>
      ((h.mem_erase_iff).mp hmem).1 rfl
    rw [if_neg hnotin]
    by_cases hx : x = o
    · subst hx
      simp [ho]
    · simp [List.mem_append, h.mem_erase_iff, hx]
  · rw [if_neg ho]
    have hmem : o ∈ s.activePitches ++ [o] := by simp
    rw [if_pos hmem, List.erase_append_right _ ho, List.erase_cons_head]
    simp

theorem toggle_twice_membership_witness :
    (0 ∈ (togglePitch 5 (togglePitch 5 initState)).activePitches ↔
      0 ∈ initState.activePitches) :=
  toggle_twice_membership initState 5 (by decide) 0

/-- C7: in every state reachable from the initial state, `play()` with an
empty Selection Set issues zero start calls and leaves the state unchanged;
when a recording is ready it completes through the played branch, so no
failure path is taken. -/
theorem play_empty_selection (ops : List Op) (now : Nat)
    (h : (runOps ops).activePitches = []) :
    (playRecording now (runOps ops)).2.2 = [] ∧
    (playRecording now (runOps ops)).2.1 = runOps ops ∧
    ((runOps ops).audioBlob.isSome = true →
      (playRecording now (runOps ops)).1 = PlayResult.played) := by
  obtain ⟨_, hsub, _, _⟩ := stateOK_runOps ops
  have hempty : (runOps ops).players = [] := by
    rw [List.eq_nil_iff_forall_not_mem]
    intro pc hpc
    have hmem := hsub pc hpc
    rw [h] at hmem
    exact (List.not_mem_nil _) hmem
  cases hb : (runOps ops).audioBlob with
  | none =>
      rw [playRecording_eq_of_none now hb]
      exact ⟨rfl, rfl, by simp [hb]⟩
  | some b =>
      have hres : playRecording now (runOps ops) =
          (PlayResult.played, runOps ops, []) := by
        simp [playRecording, hb, h, hempty]
      rw [hres]
      exact ⟨rfl, rfl, fun _ => rfl⟩

theorem play_empty_selection_witness :
    (playRecording 5 (runOps [Op.record 0, Op.toggle 0])).2.2 = [] ∧
    (playRecording 5 (runOps [Op.record 0, Op.toggle 0])).2.1 =
      runOps [Op.record 0, Op.toggle 0] ∧
    ((runOps [Op.record 0, Op.toggle 0]).audioBlob.isSome = true →
      (playRecording 5 (runOps [Op.record 0, Op.toggle 0])).1 =
        PlayResult.played) :=
  play_empty_selection [Op.record 0, Op.toggle 0] 5 (by decide)

/-- C8 counterexample: in the scenario (capture, activate +4 and +7, play)
the engine ends with three live Voice Chains, not exactly two: offset 0 is
active by initialization, so `play()` also creates and starts a chain for
offset 0. -/
theorem triad_scenario_cex :
    ((playRecording 5
        (runOps [Op.record 0, Op.toggle 4, Op.toggle 7])).2.1).players.length
      = 3 ∧
    mapHas 0 ((playRecording 5
        (runOps [Op.record 0, Op.toggle 4, Op.toggle 7])).2.1).players
      = true := by
  decide

/-- C8 amended: the scenario yields exactly three live chains — +4, +7 and 0,
offset 0 being independently active because the Selection Set is initialized
to {0} — all receiving `start` with the identical reference time; if offset 0
is toggled off before `play()`, exactly the two chains +4 and +7 remain, both
receiving `start` with the identical reference time. -/
theorem triad_scenario :
    (((playRecording 5
        (runOps [Op.record 0, Op.toggle 4, Op.toggle 7])).2.1).players.map
          Prod.fst = [4, 7, 0] ∧
     ((playRecording 5
        (runOps [Op.record 0, Op.toggle 4, Op.toggle 7])).2.2).map
          StartEvent.pitch = [4, 7, 0] ∧
     ∀ e ∈ (playRecording 5
        (runOps [Op.record 0, Op.toggle 4, Op.toggle 7])).2.2,
          e.time = 5) ∧
    (((playRecording 5
        (runOps [Op.record 0, Op.toggle 0, Op.toggle 4, Op.toggle 7])).2.1).players.map
          Prod.fst = [4, 7] ∧
     ((playRecording 5
        (runOps [Op.record 0, Op.toggle 0, Op.toggle 4, Op.toggle 7])).2.2).map
          StartEvent.pitch = [4, 7] ∧
     ∀ e ∈ (playRecording 5
        (runOps [Op.record 0, Op.toggle 0, Op.toggle 4, Op.toggle 7])).2.2,
          e.time = 5) := by
  decide

/-- C10: after every operation sequence from the initial state, the key set of
the player map is contained in the Selection Set, the map holds at most one
chain per offset (its key list is duplicate-free), and every stored chain's
pitch-shift processor was created with exactly the offset it is keyed
under. -/
theorem registry_selection_invariant (ops : List Op) :
    (∀ pc ∈ (runOps ops).players, pc.1 ∈ (runOps ops).activePitches) ∧
    ((runOps ops).players.map Prod.fst).Nodup ∧
    (∀ pc ∈ (runOps ops).players, pc.2.shifterPitch = pc.1) :=
  (stateOK_runOps ops).2

end VocalHarmony
